import Mathlib

/-!
# SafeLand flood-risk pipeline: shallow embedding and verification

This file embeds the two source files of the SafeLand repository,
`ml/train_model.py` (the trainer script) and `ml/predict.py` (the predictor),
and proves the specified properties of the train/persist/reload/predict
lifecycle: the label-encoder round trip, the closed output set of
`predict_risk`, determinism of inference, schema enforcement, split
reproducibility, artifact-path agreement, and the persistence behaviour.

Numeric feature values are embedded as `Rat` (the claims under verification
do not depend on floating-point rounding); integer label codes are `Nat`.
Fallible operations return `Option` or `Except`.
-/

namespace SafeLand

/-- `os.path.join` on a POSIX system, as used by both scripts. -/
def osPathJoin (a b : String) : String := a ++ "/" ++ b

namespace TrainModel

/-- `train_model.py` line 10: `DATA_PATH = os.path.join("data", "flood_data.csv")`. -/
def DATA_PATH : String := osPathJoin "data" "flood_data.csv"

/-- `train_model.py` line 11: `MODEL_PATH = os.path.join("ml", "flood_risk_model.pkl")`. -/
def MODEL_PATH : String := osPathJoin "ml" "flood_risk_model.pkl"

/-- `train_model.py` line 42: the encoder dump path, written inline at the
`joblib.dump` call: `os.path.join("ml", "label_encoder.pkl")`. -/
def ENCODER_DUMP_PATH : String := osPathJoin "ml" "label_encoder.pkl"

end TrainModel

namespace Predict

/-- `predict.py` line 5: `MODEL_PATH = os.path.join("ml", "flood_risk_model.pkl")`. -/
def MODEL_PATH : String := osPathJoin "ml" "flood_risk_model.pkl"

/-- `predict.py` line 6: `ENCODER_PATH = os.path.join("ml", "label_encoder.pkl")`. -/
def ENCODER_PATH : String := osPathJoin "ml" "label_encoder.pkl"

end Predict

/-! ## The label encoder

`sklearn.preprocessing.LabelEncoder`: `fit` stores the sorted distinct label
values in `classes_` (via `np.unique`); `transform` maps a label to its index
in `classes_` (failing on an unseen label); `inverse_transform` maps an index
back to the stored label (failing out of range). -/

/-- First index of `lab` in `l`, `none` when absent: the position lookup that
`LabelEncoder.transform` performs against `classes_`. -/
def listIndexOf : List String → String → Option Nat
  | [], _ => none
  | c :: cs, lab => if c = lab then some 0 else (listIndexOf cs lab).map (· + 1)

/-- Lexicographic comparison of char lists by code point, as executable
`Bool`: the element comparison `np.unique` sorts string labels by. -/
def lexLe : List Char → List Char → Bool
  | [], _ => true
  | _ :: _, [] => false
  | a :: as, b :: bs =>
    if a.toNat < b.toNat then true
    else if b.toNat < a.toNat then false
    else lexLe as bs

/-- Executable string comparison by code points; `strLeP_lt` below relates it
to the standard order on `String`. -/
def strLe (a b : String) : Bool := lexLe a.data b.data

/-- `strLe` as a relation, the sort order of `np.unique` over labels. -/
def strLeP (a b : String) : Prop := strLe a b = true

instance : DecidableRel strLeP := fun a b => instDecidableEqBool (strLe a b) true

/-- A fitted `LabelEncoder`: its `classes_` attribute, the sorted distinct
label strings seen at fit time. -/
structure LabelEncoder where
  classes : List String
deriving DecidableEq, Repr

/-- `LabelEncoder().fit(y)` (the fitting half of line 22 of `train_model.py`):
`classes_` is `np.unique(y)`, the distinct values of `y` in ascending sorted
order. -/
def fitLabelEncoder (y : List String) : LabelEncoder :=
  ⟨List.insertionSort strLeP y.dedup⟩

/-- `encoder.transform([lab])[0]`: the integer code of `lab`, `none` when the
label was not seen at fit time (sklearn raises `ValueError` there). -/
def LabelEncoder.transform (e : LabelEncoder) (lab : String) : Option Nat :=
  listIndexOf e.classes lab

/-- `encoder.inverse_transform([c])[0]` (`predict.py` line 21): the label
string stored at code `c`, `none` when `c` is out of range. -/
def LabelEncoder.inverse_transform (e : LabelEncoder) (c : Nat) : Option String :=
  e.classes[c]?

/-- The total code assignment used by `fit_transform` on the very labels the
encoder was fitted on; for a fitted label the `getD` fallback is unreachable
(`LabelEncoder.transform` succeeds), which `codeOf_lt` below makes precise. -/
def LabelEncoder.codeOf (e : LabelEncoder) (lab : String) : Nat :=
  (e.transform lab).getD e.classes.length

/-! ## Samples and the random-forest classifier

A sample is one row of the five named feature columns; `predict.py` lines
12-18 assemble exactly this attribute set. A fitted
`RandomForestClassifier` holds its `classes_` (the sorted distinct target
values seen in `fit`) and its list of fitted decision trees; `predict`
tallies the trees' votes per class and returns the class of the first
maximal tally (numpy `argmax` tie-breaking). -/

/-- One input sample: the five numeric environmental measurements, under the
canonical column names of the dataset. -/
structure Sample where
  rainfall : Rat
  water_level : Rat
  elevation : Rat
  soil_moisture : Rat
  river_distance : Rat
deriving DecidableEq, Repr

/-- Feature lookup by position in the canonical column order
(`rainfall`, `water_level`, `elevation`, `soil_moisture`, `river_distance`). -/
def Sample.feature (s : Sample) (f : Fin 5) : Rat :=
  match f with
  | ⟨0, _⟩ => s.rainfall
  | ⟨1, _⟩ => s.water_level
  | ⟨2, _⟩ => s.elevation
  | ⟨3, _⟩ => s.soil_moisture
  | ⟨4, _⟩ => s.river_distance

/-- A fitted decision tree: internal nodes compare one feature against a
real-valued threshold (left branch when the value is at most the threshold,
as in CART); leaves carry the index of a class in the forest's `classes_`. -/
inductive DTree where
  | leaf (classIdx : Nat)
  | node (f : Fin 5) (threshold : Rat) (left right : DTree)
deriving DecidableEq, Repr

/-- Run one fitted tree on a sample, yielding the class index it votes for. -/
def DTree.run : DTree → Sample → Nat
  | .leaf k, _ => k
  | .node f thr l r, x => if x.feature f ≤ thr then l.run x else r.run x

/-- Index of the first maximal entry of a tally list (`np.argmax`); `0` on the
empty list, which never arises below. Auxiliary accumulator form. -/
def argmaxAux : List Nat → Nat → Nat → Nat → Nat
  | [], _, best, _ => best
  | v :: vs, i, best, bestVal =>
      if bestVal < v then argmaxAux vs (i + 1) i v else argmaxAux vs (i + 1) best bestVal

/-- Index of the first maximal entry of a list (`np.argmax`). -/
def argmax : List Nat → Nat
  | [] => 0
  | v :: vs => argmaxAux vs 1 0 v

/-- A fitted `RandomForestClassifier`: `classes_` (sorted distinct fit-time
target values) and the fitted trees (`n_estimators` of them). -/
structure RandomForest where
  classes : List Nat
  trees : List DTree
deriving DecidableEq, Repr

/-- `model.predict(data)[0]` (`predict.py` line 20): every tree votes for a
class index, the votes are tallied per class, and the class of the first
maximal tally is returned. `none` only for a degenerate artifact with no
classes (an unfit model, on which sklearn raises). -/
def RandomForest.predictRF (F : RandomForest) (x : Sample) : Option Nat :=
  let votes := F.trees.map (fun t => t.run x)
  let tallies := (List.range F.classes.length).map (fun c => votes.count c)
  F.classes[argmax tallies]?

/-! ## The seeded shuffle and `train_test_split`

`train_test_split(X, y, test_size=0.2, random_state=42)` draws a seeded
pseudo-random permutation of the row indices, takes `ceil(0.2 * n)` of them
as the test set and the rest as the training set. The numpy generator is
embedded as a linear congruential stream driving a Fisher-Yates draw: what
the claims rely on — the result is a permutation of the row indices, fully
determined by the seed — is exactly what the library documents. -/

/-- One step of a linear congruential pseudo-random stream (the embedding of
the library's seeded generator). -/
def lcg (s : Nat) : Nat := (1103515245 * s + 12345) % 2 ^ 31

/-- Fisher-Yates draw over a worklist, advancing the stream at each pick;
`fuel` bounds the recursion and equals the list length at every call site. -/
def fisherYates : Nat → Nat → List Nat → List Nat
  | _, 0, _ => []
  | _, _ + 1, [] => []
  | seed, fuel + 1, x :: rest =>
      let s := lcg seed
      let chosen := (x :: rest).get ⟨s % (rest.length + 1), Nat.mod_lt _ (Nat.succ_pos _)⟩
      chosen :: fisherYates s fuel ((x :: rest).erase chosen)

/-- The seeded pseudo-random permutation of `0, ..., n-1` used by the split. -/
def permutation (seed n : Nat) : List Nat := fisherYates seed n (List.range n)

/-- Error taxonomy of the trainer (spec §7): each constructor names the
failure class the spec assigns to the corresponding library exception. -/
inductive TrainError where
  | IOError
  | SchemaError
  | InsufficientDataError
  | PersistError (path : String)
deriving DecidableEq, Repr

/-- `ceil(0.2 * n)`: the held-out row count chosen by `test_size=0.2`. -/
def testCount (n : Nat) : Nat := (n + 4) / 5

/-- `train_test_split(rows, test_size=0.2, random_state=randomState)`
(`train_model.py` lines 25-27), over rows already zipped with their encoded
labels. `entropy` stands for the OS randomness the library would consult if
`random_state` were `None`; the source always passes `42`. Fails when either
resulting part would be empty (sklearn raises `ValueError` there). -/
def train_test_split (rows : List α) (randomState : Option Nat) (entropy : Nat) :
    Except TrainError (List α × List α) :=
  let n := rows.length
  let nt := testCount n
  if nt = 0 ∨ n - nt = 0 then .error .InsufficientDataError
  else
    let seed := randomState.getD entropy
    let perm := permutation seed n
    let trainRows := (perm.drop nt).filterMap (fun i => rows[i]?)
    let testRows := (perm.take nt).filterMap (fun i => rows[i]?)
    .ok (trainRows, testRows)

/-! ## Fitting the forest

`RandomForestClassifier(n_estimators=100, random_state=42).fit(X_train,
y_train)` (`train_model.py` lines 30-34). The embedding keeps the library's
documented contract for the fitted artifact: `classes_` is the sorted
distinct target values of the fit data; 100 trees are grown, each from a
seeded bootstrap resample of the training rows, and each tree's leaves vote
only for classes present in its resample. The CART split construction inside
each tree is abstracted to the resample's majority class — no verified
property depends on the tree shapes, only on which classes the leaves can
name. -/

/-- A seeded bootstrap resample: `n` draws with replacement from `rows`. -/
def bootstrap (seed : Nat) (rows : List α) : List α :=
  (List.range rows.length).filterMap (fun i => rows[lcg (seed + i) % rows.length]?)

/-- Grow one tree from a bootstrap sample of (sample, code) training rows:
its vote is the index in `classes` of the resample's majority class. -/
def fitTree (classes : List Nat) (sample : List (Sample × Nat)) : DTree :=
  .leaf (argmax (classes.map (fun c => (sample.map Prod.snd).count c)))

/-- `model.fit(X_train, y_train)` for
`RandomForestClassifier(n_estimators=100, random_state=42)`. -/
def fitForest (seed : Nat) (trainRows : List (Sample × Nat)) : RandomForest :=
  let classes := List.insertionSort (· ≤ ·) (trainRows.map Prod.snd).dedup
  { classes := classes
    trees := (List.range 100).map (fun i => fitTree classes (bootstrap (seed + i) trainRows)) }

/-! ## The trainer script

`train_model.py` as one run: read the dataset, drop the `risk` column into
features and labels (pandas raises `KeyError` — the spec's `SchemaError` —
when the column is absent), fit-transform the label encoder on the full
label column, split, fit the forest, print the evaluation report, then dump
the model artifact and the encoder artifact in that order. The run returns
its result together with the ordered list of observable events, so that
"nothing was fitted" and "which artifacts reached disk" are facts of the
embedding. -/

/-- The dataset table as read from `data/flood_data.csv`: its header and its
rows. Each row carries the five feature cells as a `Sample` and the `risk`
label cell; whether a `risk` column is present in the table is recorded in
`columns`, which is what `df.drop("risk", axis=1)` checks. -/
structure DataFrame where
  columns : List String
  rows : List (Sample × String)
deriving DecidableEq, Repr

/-- The full `risk` column of the dataset: `y = df["risk"]`
(`train_model.py` line 18). -/
def riskColumn (df : DataFrame) : List String := df.rows.map Prod.snd

/-- The feature rows zipped with their encoded labels: `X` alongside
`y_encoded = label_encoder.fit_transform(y)` (`train_model.py` lines 17, 22),
row-aligned as `train_test_split` consumes them. -/
def encodedRows (df : DataFrame) : List (Sample × Nat) :=
  let e := fitLabelEncoder (riskColumn df)
  df.rows.map (fun r => (r.1, e.codeOf r.2))

/-- Observable events of a training run, in execution order. -/
inductive TrainEvent where
  | fitEncoder
  | fitModel
  | evaluated
  | dumped (path : String)
deriving DecidableEq, Repr

/-- The artifact pair a successful training run persists. -/
structure Artifacts where
  model : RandomForest
  encoder : LabelEncoder
deriving DecidableEq, Repr

/-- `joblib.dump` of the two artifacts (`train_model.py` lines 40-42), in
source order: model first, encoder second. A dump to an unwritable path
raises, aborting the run at that point. -/
def persistArtifacts (writable : String → Bool) (arts : Artifacts) :
    Except TrainError Artifacts × List TrainEvent :=
  if writable TrainModel.MODEL_PATH then
    if writable TrainModel.ENCODER_DUMP_PATH then
      (.ok arts, [.dumped TrainModel.MODEL_PATH, .dumped TrainModel.ENCODER_DUMP_PATH])
    else
      (.error (.PersistError TrainModel.ENCODER_DUMP_PATH), [.dumped TrainModel.MODEL_PATH])
  else
    (.error (.PersistError TrainModel.MODEL_PATH), [])

/-- One run of `train_model.py`. `dataset` is the parsed CSV when the file
exists (`pd.read_csv` raises otherwise); `writable` says which paths
`joblib.dump` can write; `entropy` is the ambient OS randomness, unused
because every random component is called with a fixed `random_state=42`.
The evaluation step computes the held-out predictions for the printed
report; the report is diagnostic output and not persisted. -/
def trainRun (dataset : Option DataFrame) (writable : String → Bool) (entropy : Nat) :
    Except TrainError Artifacts × List TrainEvent :=
  match dataset with
  | none => (.error .IOError, [])
  | some df =>
    if "risk" ∈ df.columns then
      let label_encoder := fitLabelEncoder (riskColumn df)
      match train_test_split (encodedRows df) (some 42) entropy with
      | .error e => (.error e, [.fitEncoder])
      | .ok (trainRows, testRows) =>
        let model := fitForest 42 trainRows
        let _report := testRows.map (fun r => (model.predictRF r.1, r.2))
        let evs : List TrainEvent := [.fitEncoder, .fitModel, .evaluated]
        let (res, pevs) := persistArtifacts writable ⟨model, label_encoder⟩
        (res, evs ++ pevs)
    else (.error .SchemaError, [])

/-- The artifact paths a run actually wrote, in write order. -/
def writesOf (evs : List TrainEvent) : List String :=
  evs.filterMap (fun e => match e with | .dumped p => some p | _ => none)

/-! ## The predictor

`predict.py`: module import eagerly `joblib.load`s the model and the encoder
from their fixed paths — a missing or unreadable file raises there, before
any prediction (the spec's `ArtifactLoadError`) — then `predict_risk`
assembles the one-row feature table, runs the model, and decodes the
predicted code through the encoder's inverse mapping. -/

/-- What a pickle file on disk deserializes to: a model object, an encoder
object, or bytes that fail to unpickle. -/
inductive Blob where
  | modelBlob (m : RandomForest)
  | encoderBlob (e : LabelEncoder)
  | corruptBlob
deriving DecidableEq, Repr

/-- Inference-side error taxonomy (spec §7). -/
inductive PredictError where
  | ArtifactLoadError
  | PredictionError
deriving DecidableEq, Repr

/-- `joblib.load(path)` over a snapshot `fs` of the artifact directory:
fails when the file is missing or does not unpickle. -/
def joblib_load (fs : String → Option Blob) (path : String) : Except PredictError Blob :=
  match fs path with
  | none => .error .ArtifactLoadError
  | some .corruptBlob => .error .ArtifactLoadError
  | some b => .ok b

/-- The loaded module state of `predict.py`: its `model` and `encoder`
globals. -/
structure Predictor where
  model : RandomForest
  encoder : LabelEncoder
deriving DecidableEq, Repr

/-- Module initialization (`predict.py` lines 8-9): load both artifacts,
model first; an artifact of the wrong kind under either path is an
incompatible artifact and also fails the load. -/
def initPredictor (fs : String → Option Blob) : Except PredictError Predictor := do
  let mb ← joblib_load fs Predict.MODEL_PATH
  let eb ← joblib_load fs Predict.ENCODER_PATH
  match mb, eb with
  | .modelBlob m, .encoderBlob e => pure ⟨m, e⟩
  | _, _ => .error .ArtifactLoadError

/-- `predict_risk(rainfall, water_level, elevation, soil_moisture,
river_distance)` (`predict.py` lines 11-23): build the one-row frame, predict
an integer code, decode it, return the single decoded label. -/
def predict_risk (model : RandomForest) (encoder : LabelEncoder)
    (rainfall water_level elevation soil_moisture river_distance : Rat) : Option String :=
  let data : Sample :=
    { rainfall := rainfall, water_level := water_level, elevation := elevation
      soil_moisture := soil_moisture, river_distance := river_distance }
  (model.predictRF data).bind (fun code => encoder.inverse_transform code)

/-- One predictor process: initialize the module once from the artifact
directory snapshot `fs`, then serve `queries` in order. `entropy` is the
ambient OS randomness available to the process; inference consults none of
it (`predict.py` performs no generator call), which the determinism theorem
below makes precise. A `none` from `predict_risk` is a raised inference
error (spec `PredictionError`). -/
def predictorProcess (fs : String → Option Blob)
    (queries : List (Rat × Rat × Rat × Rat × Rat)) (entropy : Nat) :
    Except PredictError (List String) := do
  let P ← initPredictor fs
  queries.mapM (fun q =>
    match predict_risk P.model P.encoder q.1 q.2.1 q.2.2.1 q.2.2.2.1 q.2.2.2.2 with
    | some lab => pure lab
    | none => Except.error PredictError.PredictionError)

/-! ## Facts about the label comparator and the fitted encoder -/

theorem lexLe_total (as bs : List Char) : lexLe as bs = true ∨ lexLe bs as = true := by
  induction as generalizing bs with
  | nil => left; rfl
  | cons a as ih =>
    cases bs with
    | nil => right; rfl
    | cons b bs =>
      by_cases h1 : a.toNat < b.toNat
      · left; simp [lexLe, h1]
      · by_cases h2 : b.toNat < a.toNat
        · right; simp [lexLe, h2]
        · rcases ih bs with h | h
          · left; simp [lexLe, h1, h2, h]
          · right; simp [lexLe, h1, h2, h]

theorem lexLe_trans (as bs cs : List Char) (h1 : lexLe as bs = true)
    (h2 : lexLe bs cs = true) : lexLe as cs = true := by
  induction as generalizing bs cs with
  | nil => rfl
  | cons a as ih =>
    cases bs with
    | nil => simp [lexLe] at h1
    | cons b bs =>
      cases cs with
      | nil => simp [lexLe] at h2
      | cons c cs =>
        simp only [lexLe] at h1 h2 ⊢
        split_ifs at h1 h2 ⊢ <;> first | rfl | omega | exact ih bs cs h1 h2

instance : IsTotal String strLeP := ⟨fun a b => lexLe_total a.data b.data⟩

instance : IsTrans String strLeP := ⟨fun a b c => lexLe_trans a.data b.data c.data⟩

theorem char_eq_of_toNat_eq {a b : Char} (h : a.toNat = b.toNat) : a = b := by
  apply Char.ext
  apply UInt32.eq_of_toBitVec_eq
  exact BitVec.eq_of_toNat_eq h

theorem charLt_of_toNat_lt {a b : Char} (h : a.toNat < b.toNat) : a < b := h

theorem lexLe_lt : ∀ {as bs : List Char}, lexLe as bs = true → as ≠ bs →
    List.Lex (· < ·) as bs := by
  intro as
  induction as with
  | nil =>
    intro bs h hne
    cases bs with
    | nil => exact absurd rfl hne
    | cons b bs => exact .nil
  | cons a as ih =>
    intro bs h hne
    cases bs with
    | nil => simp [lexLe] at h
    | cons b bs =>
      by_cases h1 : a.toNat < b.toNat
      · exact .rel (charLt_of_toNat_lt h1)
      · by_cases h2 : b.toNat < a.toNat
        · simp [lexLe, h1, h2] at h
        · have heq : a.toNat = b.toNat := by omega
          have hab : a = b := char_eq_of_toNat_eq heq
          subst hab
          have htail : as ≠ bs := fun e => hne (by rw [e])
          have hle : lexLe as bs = true := by simpa [lexLe, h1] using h
          exact .cons (ih hle htail)

theorem strLeP_lt {a b : String} (h : strLeP a b) (hne : a ≠ b) : a < b := by
  rw [String.lt_iff_toList_lt]
  have hdata : a.toList ≠ b.toList := fun e => hne (String.toList_inj.mp e)
  exact lexLe_lt h hdata

theorem classes_perm_dedup (y : List String) :
    (fitLabelEncoder y).classes.Perm y.dedup :=
  List.perm_insertionSort strLeP y.dedup

theorem classes_nodup (y : List String) : (fitLabelEncoder y).classes.Nodup :=
  (classes_perm_dedup y).nodup_iff.mpr (List.nodup_dedup y)

theorem mem_classes_iff (y : List String) (lab : String) :
    lab ∈ (fitLabelEncoder y).classes ↔ lab ∈ y := by
  rw [(classes_perm_dedup y).mem_iff, List.mem_dedup]

theorem classes_sorted (y : List String) :
    (fitLabelEncoder y).classes.Sorted strLeP :=
  List.sorted_insertionSort strLeP y.dedup

theorem classes_pairwise_lt (y : List String) :
    (fitLabelEncoder y).classes.Pairwise (· < ·) :=
  ((classes_sorted y).and (classes_nodup y)).imp fun hab => strLeP_lt hab.1 hab.2

theorem listIndexOf_mem {l : List String} {lab : String} (h : lab ∈ l) :
    ∃ i, listIndexOf l lab = some i ∧ l[i]? = some lab := by
  induction l with
  | nil => cases h
  | cons c cs ih =>
    by_cases hc : c = lab
    · exact ⟨0, by simp [listIndexOf, hc], by simp [hc]⟩
    · have hmem : lab ∈ cs := by
        rcases List.mem_cons.mp h with h | h
        · exact absurd h.symm hc
        · exact h
      rcases ih hmem with ⟨i, hfind, hget⟩
      exact ⟨i + 1, by simp [listIndexOf, hc, hfind], by simpa using hget⟩

theorem listIndexOf_of_getElem? {l : List String} (hn : l.Nodup) {i : Nat} {lab : String}
    (h : l[i]? = some lab) : listIndexOf l lab = some i := by
  induction l generalizing i with
  | nil => simp at h
  | cons c cs ih =>
    cases i with
    | zero =>
      simp only [List.getElem?_cons_zero, Option.some.injEq] at h
      simp [listIndexOf, h]
    | succ i =>
      simp only [List.getElem?_cons_succ] at h
      have hcne : ¬ c = lab := by
        intro e
        subst e
        exact (List.nodup_cons.mp hn).1 (List.getElem?_mem h)
      rw [listIndexOf, if_neg hcne, ih (List.nodup_cons.mp hn).2 h]
      rfl

theorem transform_mem {y : List String} {lab : String} (h : lab ∈ y) :
    ∃ i, (fitLabelEncoder y).transform lab = some i ∧
      (fitLabelEncoder y).inverse_transform i = some lab :=
  listIndexOf_mem ((mem_classes_iff y lab).mpr h)

theorem codeOf_spec {y : List String} {lab : String} (h : lab ∈ y) :
    (fitLabelEncoder y).transform lab = some ((fitLabelEncoder y).codeOf lab) ∧
      (fitLabelEncoder y).codeOf lab < (fitLabelEncoder y).classes.length := by
  rcases transform_mem h with ⟨i, h1, h2⟩
  have hi : i < (fitLabelEncoder y).classes.length := by
    rcases List.getElem?_eq_some.mp h2 with ⟨hlt, _⟩
    exact hlt
  have hc : (fitLabelEncoder y).codeOf lab = i := by
    simp [LabelEncoder.codeOf, h1]
  exact ⟨by rw [hc]; exact h1, by rw [hc]; exact hi⟩

/-! ## Facts about the forest, the shuffle and the split -/

theorem argmaxAux_lt {n : Nat} :
    ∀ (l : List Nat) (i best bv : Nat), best < n → i + l.length ≤ n →
      argmaxAux l i best bv < n
  | [], _, _, _, hb, _ => hb
  | v :: vs, i, best, bv, hb, hl => by
    simp only [argmaxAux]
    have hl' : i + 1 + vs.length ≤ n := by
      simp only [List.length_cons] at hl
      omega
    split
    · exact argmaxAux_lt vs (i + 1) i v (by omega) hl'
    · exact argmaxAux_lt vs (i + 1) best bv hb hl'

theorem argmax_lt {l : List Nat} (h : l ≠ []) : argmax l < l.length := by
  cases l with
  | nil => exact absurd rfl h
  | cons v vs =>
    simp only [argmax, List.length_cons]
    exact argmaxAux_lt vs 1 0 v (by omega) (by omega)

theorem getElem?_of_lt {l : List α} {i : Nat} (h : i < l.length) :
    ∃ a, l[i]? = some a ∧ a ∈ l :=
  ⟨l[i], List.getElem?_eq_getElem h, List.getElem_mem h⟩

theorem predictRF_mem (F : RandomForest) (x : Sample) (h : F.classes ≠ []) :
    ∃ c, F.predictRF x = some c ∧ c ∈ F.classes := by
  have hpos : 0 < F.classes.length := List.length_pos.mpr h
  set tallies := (List.range F.classes.length).map
      (fun c => (F.trees.map (fun t => t.run x)).count c) with ht
  have hlen : tallies.length = F.classes.length := by simp [ht]
  have hne : tallies ≠ [] := by
    intro he
    rw [he] at hlen
    simp only [List.length_nil] at hlen
    omega
  have harg : argmax tallies < F.classes.length := by
    rw [← hlen]
    exact argmax_lt hne
  rcases getElem?_of_lt harg with ⟨c, hc, hmem⟩
  exact ⟨c, hc, hmem⟩

theorem fitForest_classes_perm (seed : Nat) (tr : List (Sample × Nat)) :
    (fitForest seed tr).classes.Perm (tr.map Prod.snd).dedup :=
  List.perm_insertionSort (· ≤ ·) (tr.map Prod.snd).dedup

theorem fitForest_classes_subset {seed : Nat} {tr : List (Sample × Nat)} {c : Nat}
    (h : c ∈ (fitForest seed tr).classes) : c ∈ tr.map Prod.snd :=
  List.mem_dedup.mp ((fitForest_classes_perm seed tr).mem_iff.mp h)

theorem fitForest_classes_ne_nil {seed : Nat} {tr : List (Sample × Nat)} (h : tr ≠ []) :
    (fitForest seed tr).classes ≠ [] := by
  cases tr with
  | nil => exact absurd rfl h
  | cons p ps =>
    have hp : p.2 ∈ (fitForest seed (p :: ps)).classes := by
      rw [(fitForest_classes_perm seed (p :: ps)).mem_iff, List.mem_dedup]
      exact List.mem_map_of_mem Prod.snd (List.mem_cons_self p ps)
    exact List.ne_nil_of_mem hp

theorem fisherYates_perm :
    ∀ (fuel seed : Nat) (xs : List Nat), xs.length ≤ fuel →
      (fisherYates seed fuel xs).Perm xs
  | 0, _, xs, h => by
    rw [List.length_eq_zero.mp (Nat.le_zero.mp h)]
    exact .refl []
  | fuel + 1, seed, [], _ => .refl []
  | fuel + 1, seed, x :: rest, h => by
    simp only [fisherYates]
    set chosen := (x :: rest).get
      ⟨lcg seed % (rest.length + 1), Nat.mod_lt _ (Nat.succ_pos _)⟩ with hchosen
    have hmem : chosen ∈ x :: rest := List.get_mem _ _ _
    have herase : ((x :: rest).erase chosen).length ≤ fuel := by
      rw [List.length_erase_of_mem hmem]
      simp only [List.length_cons] at h ⊢
      omega
    refine List.Perm.trans ?_ (List.perm_cons_erase hmem).symm
    exact List.Perm.cons chosen (fisherYates_perm fuel (lcg seed) _ herase)

theorem permutation_perm (seed n : Nat) : (permutation seed n).Perm (List.range n) :=
  fisherYates_perm n seed (List.range n) (by simp)

theorem permutation_length (seed n : Nat) : (permutation seed n).length = n :=
  ((permutation_perm seed n).length_eq).trans (List.length_range n)

theorem mem_permutation_lt {seed n i : Nat} (h : i ∈ permutation seed n) : i < n :=
  List.mem_range.mp ((permutation_perm seed n).mem_iff.mp h)

theorem filterMap_getElem_length (rows : List α) (idx : List Nat)
    (h : ∀ i ∈ idx, i < rows.length) :
    (idx.filterMap (fun i => rows[i]?)).length = idx.length := by
  induction idx with
  | nil => rfl
  | cons i is ih =>
    have hi : i < rows.length := h i (List.mem_cons_self i is)
    rw [List.filterMap_cons, List.getElem?_eq_getElem hi]
    simp only [List.length_cons]
    rw [ih (fun j hj => h j (List.mem_cons_of_mem i hj))]

theorem mem_filterMap_getElem {rows : List α} {idx : List Nat} {r : α}
    (h : r ∈ idx.filterMap (fun i => rows[i]?)) : r ∈ rows := by
  rcases List.mem_filterMap.mp h with ⟨i, _, hr⟩
  exact List.getElem?_mem hr

theorem train_test_split_ok {rows : List α} {randomState : Option Nat} {entropy : Nat}
    (h : ¬(testCount rows.length = 0 ∨ rows.length - testCount rows.length = 0)) :
    ∃ tr te, train_test_split rows randomState entropy = .ok (tr, te) ∧
      tr.length = rows.length - testCount rows.length ∧
      te.length = testCount rows.length ∧
      (∀ r ∈ tr, r ∈ rows) ∧ (∀ r ∈ te, r ∈ rows) := by
  have hperm := permutation_perm (randomState.getD entropy) rows.length
  have hlen := permutation_length (randomState.getD entropy) rows.length
  set nt := testCount rows.length with hnt
  set perm := permutation (randomState.getD entropy) rows.length with hp
  have hdropmem : ∀ i ∈ perm.drop nt, i < rows.length :=
    fun i hi => mem_permutation_lt (List.drop_subset nt perm hi)
  have htakemem : ∀ i ∈ perm.take nt, i < rows.length :=
    fun i hi => mem_permutation_lt (List.take_subset nt perm hi)
  refine ⟨(perm.drop nt).filterMap (fun i => rows[i]?),
    (perm.take nt).filterMap (fun i => rows[i]?), ?_, ?_, ?_, ?_, ?_⟩
  · rw [train_test_split, if_neg h]
  · rw [filterMap_getElem_length rows _ hdropmem, List.length_drop, hlen]
  · rw [filterMap_getElem_length rows _ htakemem, List.length_take, hlen]
    have hle : nt ≤ rows.length := by
      rw [hnt, testCount]
      omega
    omega
  · exact fun r hr => mem_filterMap_getElem hr
  · exact fun r hr => mem_filterMap_getElem hr

instance {ε α : Type} [DecidableEq ε] [DecidableEq α] : DecidableEq (Except ε α) := fun
  | .ok a, .ok b => decidable_of_iff (a = b) (by simp)
  | .ok _, .error _ => .isFalse (by simp)
  | .error _, .ok _ => .isFalse (by simp)
  | .error e, .error f => decidable_of_iff (e = f) (by simp)

theorem trainRun_ok_inv {df : DataFrame} {writable : String → Bool} {entropy : Nat}
    {arts : Artifacts} {evs : List TrainEvent}
    (h : trainRun (some df) writable entropy = (.ok arts, evs)) :
    "risk" ∈ df.columns ∧
    ∃ trainRows testRows,
      train_test_split (encodedRows df) (some 42) entropy = .ok (trainRows, testRows) ∧
      arts.model = fitForest 42 trainRows ∧
      arts.encoder = fitLabelEncoder (riskColumn df) := by
  by_cases hr : "risk" ∈ df.columns
  · refine ⟨hr, ?_⟩
    rw [trainRun, if_pos hr] at h
    rcases hs : train_test_split (encodedRows df) (some 42) entropy with e | ⟨trainRows, testRows⟩
    · rw [hs] at h
      simp at h
    · rw [hs] at h
      simp only [persistArtifacts] at h
      split_ifs at h
      · simp only [Prod.mk.injEq, Except.ok.injEq] at h
        rcases h with ⟨harts, _⟩
        exact ⟨trainRows, testRows, rfl, by rw [← harts], by rw [← harts]⟩
      · exact absurd (congrArg Prod.fst h) (by simp)
      · exact absurd (congrArg Prod.fst h) (by simp)
  · rw [trainRun, if_neg hr] at h
    simp at h

/-! ## Concrete fixtures for the closed-form checks -/

/-- A two-row table in the dataset schema, for evaluating the pipeline on
concrete data. -/
def sampleFrame : DataFrame :=
  { columns := ["rainfall", "water_level", "elevation", "soil_moisture", "river_distance", "risk"]
    rows := [(⟨120, 4, 30, 80, 1⟩, "High"), (⟨10, 1, 200, 20, 9⟩, "Low")] }

/-- The malformed-dataset scenario of spec §8: the label column renamed, so
no `risk` column exists. -/
def renamedFrame : DataFrame :=
  { columns := ["rainfall", "water_level", "elevation", "soil_moisture", "river_distance", "label"]
    rows := [(⟨120, 4, 30, 80, 1⟩, "High")] }

/-- An artifact directory where every path is writable. -/
def writableAll : String → Bool := fun _ => true

/-- An artifact directory where only the model path is writable, so the
encoder dump fails after the model dump succeeded. -/
def writableModelOnly : String → Bool := fun p => p == TrainModel.MODEL_PATH

/-- A small fitted forest artifact for predictor-side checks. -/
def tinyForest : RandomForest := { classes := [0], trees := [.leaf 0] }

/-- The encoder artifact matching `tinyForest`. -/
def tinyEncoder : LabelEncoder := { classes := ["Low"] }

/-- The artifact directory after a successful training run: both artifacts
present under their fixed paths. -/
def fsBoth : String → Option Blob := fun p =>
  if p = Predict.MODEL_PATH then some (.modelBlob tinyForest)
  else if p = Predict.ENCODER_PATH then some (.encoderBlob tinyEncoder)
  else none

/-- The artifact directory before any training run: empty. -/
def fsEmpty : String → Option Blob := fun _ => none

/-! ## The claims -/

/-- C1: for every label string present in the training dataset's `risk`
column, encoding it with the fitted label encoder and decoding the resulting
integer code with the same encoder's inverse mapping returns the original
string: decode(encode(label)) = label for every label value after the
encoder is fit. -/
theorem label_roundTrip (y : List String) (lab : String) (h : lab ∈ y) :
    ((fitLabelEncoder y).transform lab).bind
      (fun c => (fitLabelEncoder y).inverse_transform c) = some lab := by
  rcases transform_mem h with ⟨i, h1, h2⟩
  rw [h1]
  exact h2

/-- C1 check: the round trip at a concrete label column and label. -/
theorem label_roundTrip_check :
    "High" ∈ ["Low", "Medium", "High", "Low"] ∧
    ((fitLabelEncoder ["Low", "Medium", "High", "Low"]).transform "High").bind
      (fun c => (fitLabelEncoder ["Low", "Medium", "High", "Low"]).inverse_transform c) =
      some "High" :=
  ⟨by decide, label_roundTrip ["Low", "Medium", "High", "Low"] "High" (by decide)⟩

/-- C3: inference is deterministic for a fixed artifact pair: two predictor
calls on the same five input values return the identical label, whatever
ambient randomness either process had available — `predict.py` consults no
generator at inference time. -/
theorem predict_deterministic (fs : String → Option Blob) (q : Rat × Rat × Rat × Rat × Rat)
    (e1 e2 : Nat) (l1 l2 : String)
    (h1 : predictorProcess fs [q] e1 = .ok [l1])
    (h2 : predictorProcess fs [q] e2 = .ok [l2]) : l1 = l2 := by
  have hfree : predictorProcess fs [q] e1 = predictorProcess fs [q] e2 := rfl
  have h3 : (Except.ok [l1] : Except PredictError (List String)) = .ok [l2] := by
    rw [← h1, hfree, h2]
  simpa using h3

/-- C3 check: two runs with different ambient entropy, same artifacts and
input, and the equal labels the theorem yields. -/
theorem predict_deterministic_check :
    predictorProcess fsBoth [(110, 3.8, 40, 70, 1.2)] 0 = .ok ["Low"] ∧
    predictorProcess fsBoth [(110, 3.8, 40, 70, 1.2)] 7 = .ok ["Low"] ∧
    ("Low" : String) = "Low" :=
  ⟨by decide, by decide,
    predict_deterministic fsBoth (110, 3.8, 40, 70, 1.2) 0 7 "Low" "Low"
      (by decide) (by decide)⟩

/-- C4: on any training run that succeeds, the persisted encoder has an
integer code for every label value appearing anywhere in the dataset's
`risk` column — the encoder is fit on the full column before the split, so
labels that end up only in the evaluation split are covered too. -/
theorem encoder_covers_full_column (df : DataFrame) (writable : String → Bool)
    (entropy : Nat) (h : (trainRun (some df) writable entropy).1.isOk = true) :
    ∃ arts, (trainRun (some df) writable entropy).1 = .ok arts ∧
      ∀ lab ∈ riskColumn df, ∃ c, arts.encoder.transform lab = some c ∧
        arts.encoder.inverse_transform c = some lab := by
  rcases hE : trainRun (some df) writable entropy with ⟨res, evs⟩
  rw [hE] at h
  cases res with
  | error e => simp [Except.isOk, Except.toBool] at h
  | ok arts =>
    rcases trainRun_ok_inv hE with ⟨_, _, _, _, _, henc⟩
    refine ⟨arts, rfl, fun lab hmem => ?_⟩
    rw [henc]
    exact transform_mem hmem

/-- C4 check: on the concrete frame, the run succeeds and the label "Low" —
which falls entirely into the held-out split under seed 42 — still has a
code in the persisted encoder. -/
theorem encoder_covers_full_column_check :
    (trainRun (some sampleFrame) writableAll 0).1.isOk = true ∧
    ∃ arts, (trainRun (some sampleFrame) writableAll 0).1 = .ok arts ∧
      ∀ lab ∈ riskColumn sampleFrame, ∃ c, arts.encoder.transform lab = some c ∧
        arts.encoder.inverse_transform c = some lab :=
  ⟨by decide, encoder_covers_full_column sampleFrame writableAll 0 (by decide)⟩

/-- C5: a training run over a table without a `risk` column fails with
`SchemaError` at the feature/label separation step, with no fit event and no
artifact written. -/
theorem missing_risk_schema_error (df : DataFrame) (writable : String → Bool)
    (entropy : Nat) (h : "risk" ∉ df.columns) :
    trainRun (some df) writable entropy = (.error .SchemaError, []) := by
  rw [trainRun, if_neg h]

/-- C5 check: the renamed-label-column scenario aborts with `SchemaError`
and an empty event trace. -/
theorem missing_risk_schema_error_check :
    "risk" ∉ renamedFrame.columns ∧
    trainRun (some renamedFrame) writableAll 0 = (.error .SchemaError, []) :=
  ⟨by decide, missing_risk_schema_error renamedFrame writableAll 0 (by decide)⟩

/-- C9: when either artifact file is missing from the artifact directory,
predictor initialization fails with `ArtifactLoadError` and no query is ever
answered — never a silently returned default label. -/
theorem missing_artifact_load_error (fs : String → Option Blob)
    (queries : List (Rat × Rat × Rat × Rat × Rat)) (entropy : Nat)
    (h : fs Predict.MODEL_PATH = none ∨ fs Predict.ENCODER_PATH = none) :
    predictorProcess fs queries entropy = .error .ArtifactLoadError := by
  rcases h with h | h
  · simp [predictorProcess, initPredictor, joblib_load, h, Bind.bind, Except.bind]
  · cases hm : fs Predict.MODEL_PATH with
    | none => simp [predictorProcess, initPredictor, joblib_load, hm, Bind.bind, Except.bind]
    | some b =>
      cases b <;>
        simp [predictorProcess, initPredictor, joblib_load, hm, h, Bind.bind, Except.bind]

/-- C9 check: the empty artifact directory makes the predictor fail with
`ArtifactLoadError`. -/
theorem missing_artifact_load_error_check :
    (fsEmpty Predict.MODEL_PATH = none ∨ fsEmpty Predict.ENCODER_PATH = none) ∧
    predictorProcess fsEmpty [] 0 = .error .ArtifactLoadError :=
  ⟨Or.inl rfl, missing_artifact_load_error fsEmpty [] 0 (Or.inl rfl)⟩

/-- C10: the artifact file contract between the two entry points: the
trainer's model dump path equals the predictor's model load path, the
trainer's encoder dump path equals the predictor's encoder load path, and
they are `ml/flood_risk_model.pkl` and `ml/label_encoder.pkl`. -/
theorem artifact_paths_agree :
    TrainModel.MODEL_PATH = Predict.MODEL_PATH ∧
    TrainModel.ENCODER_DUMP_PATH = Predict.ENCODER_PATH ∧
    Predict.MODEL_PATH = "ml/flood_risk_model.pkl" ∧
    Predict.ENCODER_PATH = "ml/label_encoder.pkl" :=
  ⟨rfl, rfl, by decide, by decide⟩

/-- C2: on any training run that succeeds, `predict_risk` with the persisted
artifact pair returns exactly one string label for any five input values,
and that label is a member of the distinct label strings present in the
training dataset's `risk` column at fit time — never a novel string. -/
theorem predict_closed_set (df : DataFrame) (writable : String → Bool) (entropy : Nat)
    (rainfall water_level elevation soil_moisture river_distance : Rat)
    (h : (trainRun (some df) writable entropy).1.isOk = true) :
    ∃ arts lab, (trainRun (some df) writable entropy).1 = .ok arts ∧
      predict_risk arts.model arts.encoder rainfall water_level elevation
        soil_moisture river_distance = some lab ∧
      lab ∈ riskColumn df := by
  rcases hE : trainRun (some df) writable entropy with ⟨res, evs⟩
  rw [hE] at h
  cases res with
  | error e => simp [Except.isOk, Except.toBool] at h
  | ok arts =>
    rcases trainRun_ok_inv hE with ⟨_, trainRows, testRows, hsplit, hmodel, henc⟩
    have hguard : ¬(testCount (encodedRows df).length = 0 ∨
        (encodedRows df).length - testCount (encodedRows df).length = 0) := by
      intro hg
      rw [train_test_split, if_pos hg] at hsplit
      exact Except.noConfusion hsplit
    rcases @train_test_split_ok _ (encodedRows df) (some 42) entropy hguard with
      ⟨tr, te, hok, hlentr, _, htrsub, _⟩
    rw [hsplit] at hok
    injection Except.ok.inj hok with h1 h2
    subst h1
    subst h2
    have hne : trainRows ≠ [] := by
      intro h0
      rw [h0] at hlentr
      simp only [List.length_nil] at hlentr
      push_neg at hguard
      omega
    rcases predictRF_mem (fitForest 42 trainRows)
        ⟨rainfall, water_level, elevation, soil_moisture, river_distance⟩
        (fitForest_classes_ne_nil hne) with ⟨code, hpred, hcmem⟩
    rcases List.mem_map.mp (fitForest_classes_subset hcmem) with ⟨row, hrowmem, hrowcode⟩
    have hrow : row ∈ df.rows.map
        (fun r => (r.1, (fitLabelEncoder (riskColumn df)).codeOf r.2)) :=
      htrsub row hrowmem
    rcases List.mem_map.mp hrow with ⟨r0, hr0mem, hr0eq⟩
    have hlab : r0.2 ∈ riskColumn df := List.mem_map_of_mem Prod.snd hr0mem
    have hc2 : (fitLabelEncoder (riskColumn df)).codeOf r0.2 = row.2 :=
      congrArg Prod.snd hr0eq
    have hcode_lt : code < (fitLabelEncoder (riskColumn df)).classes.length := by
      rw [← hrowcode, ← hc2]
      exact (codeOf_spec hlab).2
    rcases getElem?_of_lt hcode_lt with ⟨lab, hget, hlabmem⟩
    refine ⟨arts, lab, rfl, ?_, (mem_classes_iff _ _).mp hlabmem⟩
    rw [hmodel, henc]
    simp only [predict_risk]
    rw [hpred]
    exact hget

/-- C2 check: on the concrete frame the run succeeds, and the prediction at
the spec §8 scenario input is one label from the dataset's `risk` column. -/
theorem predict_closed_set_check :
    (trainRun (some sampleFrame) writableAll 0).1.isOk = true ∧
    ∃ arts lab, (trainRun (some sampleFrame) writableAll 0).1 = .ok arts ∧
      predict_risk arts.model arts.encoder 110 3.8 40 70 1.2 = some lab ∧
      lab ∈ riskColumn sampleFrame :=
  ⟨by decide, predict_closed_set sampleFrame writableAll 0 110 3.8 40 70 1.2 (by decide)⟩

/-- C6 counterexample: a persistence failure is not atomic. With the model
path writable and the encoder path not, the run fails *after* dumping the
model artifact, leaving it on disk without its counterpart. -/
theorem persist_torn_counterexample :
    (trainRun (some sampleFrame) writableModelOnly 0).1 =
      .error (.PersistError TrainModel.ENCODER_DUMP_PATH) ∧
    writesOf (trainRun (some sampleFrame) writableModelOnly 0).2 =
      [TrainModel.MODEL_PATH] :=
  ⟨by decide, by decide⟩

/-- C6 amended: a failure at any step before persistence writes nothing; the
model artifact is dumped before the encoder artifact, so the only partial
state a failing run can leave is the model artifact without its counterpart,
when the encoder dump itself fails after a successful model dump. -/
theorem persist_write_order (dataset : Option DataFrame) (writable : String → Bool)
    (entropy : Nat) :
    match trainRun dataset writable entropy with
    | (.ok _, evs) =>
        writesOf evs = [TrainModel.MODEL_PATH, TrainModel.ENCODER_DUMP_PATH]
    | (.error (.PersistError p), evs) =>
        (p = TrainModel.MODEL_PATH ∧ writesOf evs = []) ∨
        (p = TrainModel.ENCODER_DUMP_PATH ∧ writesOf evs = [TrainModel.MODEL_PATH])
    | (.error _, evs) => writesOf evs = [] := by
  cases dataset with
  | none => simp [trainRun, writesOf]
  | some df =>
    by_cases hr : "risk" ∈ df.columns
    · rw [trainRun, if_pos hr]
      rcases hs : train_test_split (encodedRows df) (some 42) entropy with e | ⟨tr, te⟩
      · have he : e = .InsufficientDataError := by
          by_cases hg : testCount (encodedRows df).length = 0 ∨
              (encodedRows df).length - testCount (encodedRows df).length = 0
          · rw [train_test_split, if_pos hg] at hs
            exact (Except.error.inj hs).symm
          · rw [train_test_split, if_neg hg] at hs
            exact Except.noConfusion hs
        subst he
        simp [writesOf]
      · simp only [persistArtifacts]
        split_ifs with h1 h2
        · simp [writesOf]
        · simp [writesOf]
        · simp [writesOf]
    · rw [trainRun, if_neg hr]
      simp [writesOf]

/-- C7 counterexample: exact 80%/20% fails for row counts that are not
multiples of five. On six rows the program holds out `ceil(0.2 * 6) = 2`
rows and trains on four — one third of the rows held out, not 20%. -/
theorem split_ratio_counterexample :
    (train_test_split (List.range 6) (some 42) 0).map
      (fun p => (p.1.length, p.2.length)) = .ok (4, 2) ∧
    ¬(5 * 4 = 4 * (List.range 6).length ∧ 5 * 2 = (List.range 6).length) :=
  ⟨by decide, by decide⟩

/-- C7 amended: on any dataset the split holds out `ceil(n/5)` rows
(`test_size=0.2` rounded up) and trains on the remaining `n - ceil(n/5)` —
exactly 80%/20% when the row count is a multiple of five — failing with
`InsufficientDataError` only when fewer than two rows exist; and it is
deterministic given the fixed seed 42: two runs with the same rows and seed
produce identical row-for-row partitions, whatever ambient entropy each run
had. -/
theorem split_sizes_deterministic (α : Type) (rows : List α) (e1 e2 : Nat) :
    train_test_split rows (some 42) e1 = train_test_split rows (some 42) e2 ∧
    match train_test_split rows (some 42) e1 with
    | .ok (tr, te) =>
        te.length = testCount rows.length ∧
        tr.length = rows.length - testCount rows.length ∧
        (5 ∣ rows.length → 5 * tr.length = 4 * rows.length ∧ 5 * te.length = rows.length)
    | .error e => e = .InsufficientDataError ∧ rows.length ≤ 1 := by
  refine ⟨rfl, ?_⟩
  by_cases hg : testCount rows.length = 0 ∨ rows.length - testCount rows.length = 0
  · rw [train_test_split, if_pos hg]
    refine ⟨rfl, ?_⟩
    rw [testCount] at hg
    omega
  · rcases @train_test_split_ok _ rows (some 42) e1 hg with
      ⟨tr, te, hok, hltr, hlte, _, _⟩
    rw [hok]
    refine ⟨hlte, hltr, fun h5 => ?_⟩
    rw [testCount] at hltr hlte
    constructor <;> omega

/-- C8: the fitted encoder's `classes_` list is strictly ascending in the
string order, and the code of the class at position `i` is `i`: the `k`
distinct labels get codes `0..k-1` in ascending sorted order. -/
theorem encoder_codes_sorted (y : List String) :
    (fitLabelEncoder y).classes.Pairwise (· < ·) ∧
    ∀ i (h : i < (fitLabelEncoder y).classes.length),
      (fitLabelEncoder y).transform ((fitLabelEncoder y).classes.get ⟨i, h⟩) = some i := by
  refine ⟨classes_pairwise_lt y, fun i h => ?_⟩
  apply listIndexOf_of_getElem? (classes_nodup y)
  rw [List.getElem?_eq_getElem h]
  rfl

/-- C8 check: with labels {High, Low, Medium} the classes are strictly
ascending and the spec's example coding holds: High = 0, Low = 1,
Medium = 2. -/
theorem encoder_codes_sorted_check :
    (fitLabelEncoder ["Low", "Medium", "High"]).classes.Pairwise (· < ·) ∧
    (fitLabelEncoder ["Low", "Medium", "High"]).transform "High" = some 0 ∧
    (fitLabelEncoder ["Low", "Medium", "High"]).transform "Low" = some 1 ∧
    (fitLabelEncoder ["Low", "Medium", "High"]).transform "Medium" = some 2 := by
  refine ⟨(encoder_codes_sorted ["Low", "Medium", "High"]).1, ?_, ?_, ?_⟩
  · exact (encoder_codes_sorted ["Low", "Medium", "High"]).2 0 (by decide)
  · exact (encoder_codes_sorted ["Low", "Medium", "High"]).2 1 (by decide)
  · exact (encoder_codes_sorted ["Low", "Medium", "High"]).2 2 (by decide)

end SafeLand
